import Mathlib

/-!
Verification of the melody-matching core of `backend/melody_matcher.py`.

Embedding conventions:
* a pitch sequence is a `List (Option ℚ)`: one entry per analysis frame,
  `none` standing for NaN ("no value"), `some x` for a pitch of `x` Hz;
* a melodic contour is a `List ℤ` with values in {-1, 0, +1};
* `float('inf')` results of the DTW matcher live in `WithTop ℚ`, with `⊤`
  standing for infinity; all finite float arithmetic performed by the code
  on these small integer costs is exact, so `ℚ` models it faithfully.
-/

namespace MelodyMatcher

/-! ### PitchExtractor._interpolate_gaps -/

/-- `np.interp x [x0, x1] [y0, y1]` for `x0 < x1`: linear interpolation. -/
def interpAt (x x0 x1 y0 y1 : ℚ) : ℚ :=
  y0 + (y1 - y0) * (x - x0) / (x1 - x0)

/-- One iteration (index `i` into `nansIdx`) of the loop in
`PitchExtractor._interpolate_gaps`: skips the first and the last NaN index,
otherwise looks up the nearest valid frames around `nansIdx[i]` and fills the
cell by linear interpolation when `next_valid[0] - prev_valid[-1] <= max_gap`. -/
def interpGapsStep (maxGap : ℕ) (nansIdx notNansIdx : List ℕ)
    (pitch : List (Option ℚ)) (i : ℕ) : List (Option ℚ) :=
  if i = 0 ∨ i = nansIdx.length - 1 then pitch
  else
    let idx := nansIdx.getD i 0
    match (notNansIdx.filter (fun k => k < idx)).getLast?,
          (notNansIdx.filter (fun k => idx < k)).head? with
    | some p, some nx =>
      if nx - p ≤ maxGap then
        match pitch.getD p none, pitch.getD nx none with
        | some yp, some yn =>
            pitch.set idx (some (interpAt (idx : ℚ) (p : ℚ) (nx : ℚ) yp yn))
        | _, _ => pitch
      else pitch
    | _, _ => pitch

/-- `PitchExtractor._interpolate_gaps(pitch, max_gap)`: computes the NaN and
non-NaN index lists once, then runs the fill loop over all NaN positions. -/
def interpolateGaps (maxGap : ℕ) (pitch : List (Option ℚ)) : List (Option ℚ) :=
  let nansIdx := (List.range pitch.length).filter (fun k => pitch.getD k none = none)
  let notNansIdx := (List.range pitch.length).filter (fun k => pitch.getD k none ≠ none)
  if nansIdx = [] then pitch
  else if notNansIdx.length < 2 then pitch
  else (List.range nansIdx.length).foldl (interpGapsStep maxGap nansIdx notNansIdx) pitch

/-! ### PitchExtractor._median_filter -/

/-- One output cell of `scipy.signal.medfilt` with kernel size `w`: the median
of the window of width `w` centred at `i`, zero-padded outside the input. -/
def medfiltAt (w : ℕ) (x : List ℚ) (i : ℕ) : ℚ :=
  let win := (List.range w).map (fun k =>
    if i + k < w / 2 then 0 else x.getD (i + k - w / 2) 0)
  (win.mergeSort (fun a b => decide (a ≤ b))).getD (w / 2) 0

/-- `scipy.signal.medfilt(x, kernel_size = w)`. -/
def medfilt (w : ℕ) (x : List ℚ) : List ℚ :=
  (List.range x.length).map (medfiltAt w x)

/-- Writes the filtered values back into the valid (non-NaN) positions, in
order, leaving NaN cells untouched: models `pitch_filtered[valid_idx] = ...`. -/
def scatterValid : List (Option ℚ) → List ℚ → List (Option ℚ)
  | [], _ => []
  | none :: rest, vs => none :: scatterValid rest vs
  | some x :: rest, [] => some x :: scatterValid rest []
  | some _ :: rest, v :: vs => some v :: scatterValid rest vs

/-- `PitchExtractor._median_filter(pitch, window)`: median-filters the valid
subsequence only when the number of valid frames strictly exceeds `window`. -/
def medianFilter (window : ℕ) (pitch : List (Option ℚ)) : List (Option ℚ) :=
  let valid := pitch.filterMap id
  if window < valid.length then scatterValid pitch (medfilt window valid)
  else pitch

/-! ### ContourExtractor -/

/-- Full discrete convolution `np.convolve(a, v)`, length `a.length + v.length - 1`. -/
def convFull (a v : List ℚ) : List ℚ :=
  (List.range (a.length + v.length - 1)).map (fun k =>
    ((List.range a.length).map (fun j =>
      if j ≤ k then a.getD j 0 * v.getD (k - j) 0 else 0)).sum)

/-- `np.convolve(a, v, mode = 'same')`: the middle `max |a| |v|` entries of the
full convolution, starting at offset `(min |a| |v| - 1) / 2`. -/
def convolveSame (a v : List ℚ) : List ℚ :=
  ((convFull a v).drop ((min a.length v.length - 1) / 2)).take (max a.length v.length)

/-- `ContourExtractor._smooth_pitch`: moving average of width `w` via
`np.convolve(pitch, ones(w)/w, 'same')`, skipped when the input is shorter
than the window. -/
def smoothPitch (w : ℕ) (p : List ℚ) : List ℚ :=
  if p.length < w then p
  else convolveSame p (List.replicate w (1 / (w : ℚ)))

/-- `np.diff`: successive differences. -/
def pitchDiffs (p : List ℚ) : List ℚ :=
  List.zipWith (fun x y => y - x) p p.tail

/-- Classification of one pitch difference against the threshold, as done by
the two masked assignments in `extract_contour` (`-1` wins on overlap, which
for a positive threshold never happens). -/
def classifyDiff (t d : ℚ) : ℤ :=
  if d < -t then -1 else if t < d then 1 else 0

/-- Maximal runs of equal adjacent values: models
`np.split(contour, change_idx)` where `change_idx` marks the places where
`np.diff(contour)` is nonzero. -/
def splitRuns : List ℤ → List (List ℤ)
  | [] => []
  | a :: l =>
    match splitRuns l with
    | [] => [[a]]
    | g :: gs => if g.headD a = a then (a :: g) :: gs else [a] :: g :: gs

/-- One iteration of the segment-merging loop in
`ContourExtractor._smooth_contour`: a run of length `≥ min_duration` is kept;
a shorter run is replaced by copies of the last value already emitted (or kept
as is when nothing was emitted yet). -/
def mergeStep (minDur : ℕ) (result seg : List ℤ) : List ℤ :=
  if minDur ≤ seg.length then result ++ seg
  else
    match result.getLast? with
    | some x => result ++ List.replicate seg.length x
    | none => result ++ seg

/-- `ContourExtractor._smooth_contour(contour, min_duration)`. -/
def smoothContour (minDur : ℕ) (contour : List ℤ) : List ℤ :=
  if contour.length < minDur then contour
  else (splitRuns contour).foldl (mergeStep minDur) []

/-- `ContourExtractor.extract_contour`: drop NaN frames, return `[]` when
fewer than 2 valid frames remain, else smooth, difference, classify against
the threshold and merge short runs. -/
def extractContour (threshold : ℚ) (w minDur : ℕ) (pitch : List (Option ℚ)) : List ℤ :=
  let valid := pitch.filterMap id
  if valid.length < 2 then []
  else smoothContour minDur ((pitchDiffs (smoothPitch w valid)).map (classifyDiff threshold))

/-! ### DTWMatcher -/

/-- `DTWMatcher._contour_distance`: 0 when equal, 2 when the product is −1
(opposite directions), 1 otherwise. -/
def contourDistance (a b : ℤ) : ℕ :=
  if a = b then 0 else if a * b = -1 then 2 else 1

/-- Row `i + 1` of the DTW table, built cell by cell from left to right out of
the previous row `rowPrev` (row `i`).  Cell `j + 1` outside the Sakoe–Chiba
band `max 1 (i + 1 - window) ≤ j + 1 < min (m + 1) (i + 1 + window)` keeps its
`+∞` initialisation; a cell inside the band gets
`cost(query[i], reference[j]) + min` of the three predecessors. -/
def dtwRowStep (q r : List ℤ) (window i : ℕ) (rowPrev : ℕ → WithTop ℕ) :
    ℕ → WithTop ℕ
  | 0 => ⊤
  | j + 1 =>
    if j + 1 < max 1 (i + 1 - window) ∨ min (r.length + 1) (i + 1 + window) ≤ j + 1 then ⊤
    else
      (contourDistance (q.getD i 0) (r.getD j 0) : WithTop ℕ) +
        min (rowPrev (j + 1))
          (min (dtwRowStep q r window i rowPrev j) (rowPrev j))

/-- Row `i` of the DTW cost table of `DTWMatcher.compute_distance`:
row 0 is the initialisation `dtw_matrix[0, 0] = 0`, `+∞` elsewhere. -/
def dtwRow (q r : List ℤ) (window : ℕ) : ℕ → (ℕ → WithTop ℕ)
  | 0 => fun j => if j = 0 then 0 else ⊤
  | i + 1 => dtwRowStep q r window i (dtwRow q r window i)

/-- Cell `(i, j)` of the DTW cost table. -/
def dtwCell (q r : List ℤ) (window i j : ℕ) : WithTop ℕ :=
  dtwRow q r window i j

/-- `DTWMatcher.compute_distance(query, reference)`: `+∞` when either input is
empty; otherwise the banded DTW table value at `(n, m)`, normalised by
`n + m`.  The band half-width is `max window_size |n - m|` when a window size
is configured, `max n m` otherwise. -/
def computeDistance (windowSize : Option ℕ) (query reference : List ℤ) : WithTop ℚ :=
  let n := query.length
  let m := reference.length
  if n = 0 ∨ m = 0 then ⊤
  else
    let window := match windowSize with
      | some w => max w (Nat.dist n m)
      | none => max n m
    (dtwCell query reference window n m).map (fun c : ℕ => (c : ℚ) / ((n : ℚ) + (m : ℚ)))

/-! ### MelodySignature and persistence -/

/-- The `MelodySignature` dataclass. -/
structure MelodySignature where
  pitch_contour : List ℤ
  pitch_values : List (Option ℚ)
  song_id : String
  duration : ℚ

/-- The pickled payload written by `MelodySignature.save`: a key → value
mapping with the four fields; `Option` models a field possibly absent from a
foreign payload (`dict.get` with a default). -/
structure SignaturePayload where
  pitch_contour : Option (List ℤ)
  pitch_values : Option (List (Option ℚ))
  song_id : Option String
  duration : Option ℚ

/-- `MelodySignature.save`: the payload dict written to disk (pickle itself is
faithful, so serialisation is modelled by the payload the code builds). -/
def MelodySignature.save (s : MelodySignature) : SignaturePayload :=
  ⟨some s.pitch_contour, some s.pitch_values, some s.song_id, some s.duration⟩

/-- `MelodySignature.from_payload` on a dict payload: each field defaulted as
in the source (`song_id` defaulting to the caller's key). -/
def MelodySignature.fromPayload (p : SignaturePayload) (songId : String) : MelodySignature :=
  { pitch_contour := p.pitch_contour.getD []
    pitch_values := p.pitch_values.getD []
    song_id := p.song_id.getD songId
    duration := p.duration.getD 0 }

/-- `MelodyDatabase.load_signature`: reconstruct from the payload and then
force `song_id` to the loader's key. -/
def loadSignature (songId : String) (p : SignaturePayload) : MelodySignature :=
  let s := MelodySignature.fromPayload p songId
  { s with song_id := songId }

/-! ### MelodyDatabase.add_song -/

/-- Assignment `self.signatures[song_id] = signature` on the dict, modelled as
a function update. -/
def dictInsert (st : String → Option MelodySignature) (k : String)
    (v : MelodySignature) : String → Option MelodySignature :=
  fun k' => if k' = k then some v else st k'

/-- `MelodyDatabase.add_song`: run the (fallible, audio-decoding) pitch
extraction, then the contour extraction, build the signature and insert it.
`extract` stands for `PitchExtractor.extract_pitch`, whose audio decoding can
raise; the returned pair is (state of `self.signatures` afterwards, outcome).
On an extraction error the store is returned untouched. -/
def addSong (extract : String → Except String (List (Option ℚ)))
    (st : String → Option MelodySignature) (songId audioPath : String)
    (duration : ℚ) : (String → Option MelodySignature) × Except String MelodySignature :=
  match extract audioPath with
  | Except.error e => (st, Except.error e)
  | Except.ok pitch =>
    let contour := extractContour 10 3 2 pitch
    let sig : MelodySignature := ⟨contour, pitch, songId, duration⟩
    (dictInsert st songId sig, Except.ok sig)

/-! ### HummingMatcher -/

/-- The comparison loop of `HummingMatcher.match_humming`: one
`(song_id, distance)` pair per stored entry, via the default matcher
(`window_size = 50`). -/
def matchAll (q : List ℤ) (store : List (String × List ℤ)) :
    List (String × WithTop ℚ) :=
  store.map (fun e => (e.1, computeDistance (some 50) q e.2))

/-- `HummingMatcher.match_humming`: raises (`Except.error`) when the query
contour is empty, otherwise scores every stored entry, sorts by distance
ascending and keeps the first `topK`. -/
def matchHumming (q : List ℤ) (store : List (String × List ℤ)) (topK : ℕ) :
    Except String (List (String × WithTop ℚ)) :=
  if q.length = 0 then Except.error "Could not extract valid melody from humming"
  else Except.ok (((matchAll q store).mergeSort (fun a b => decide (a.2 ≤ b.2))).take topK)

/-- The similarity transform of `HummingMatcher.match_with_details`:
`1 / (1 + d)`, which at `d = +∞` is the float value `0.0`. -/
def similarityScore (d : WithTop ℚ) : ℚ :=
  WithTop.recTopCoe 0 (fun x => 1 / (1 + x)) d

end MelodyMatcher

namespace MelodyMatcher

/-! ### Helper lemmas -/

lemma convFull_length (a v : List ℚ) :
    (convFull a v).length = a.length + v.length - 1 := by
  simp [convFull]

lemma convolveSame_length (a v : List ℚ) (h : v.length ≤ a.length)
    (hv : 1 ≤ v.length) : (convolveSame a v).length = a.length := by
  simp only [convolveSame, List.length_take, List.length_drop, convFull_length]
  omega

lemma smoothPitch_length (w : ℕ) (hw : 1 ≤ w) (p : List ℚ) :
    (smoothPitch w p).length = p.length := by
  unfold smoothPitch
  split
  · rfl
  · rename_i h
    rw [convolveSame_length] <;> simp <;> omega

lemma pitchDiffs_length (p : List ℚ) : (pitchDiffs p).length = p.length - 1 := by
  simp only [pitchDiffs, List.length_zipWith, List.length_tail]
  omega

lemma splitRuns_flatten (l : List ℤ) : (splitRuns l).flatten = l := by
  induction l with
  | nil => rfl
  | cons a l ih =>
    cases h : splitRuns l with
    | nil =>
      rw [h] at ih
      simp only [List.flatten_nil] at ih
      simp [splitRuns, h, ← ih]
    | cons g gs =>
      rw [h] at ih
      have e : splitRuns (a :: l) =
          if g.head?.getD a = a then (a :: g) :: gs else [a] :: g :: gs := by
        simp [splitRuns, h]
      rw [e]
      by_cases hg : g.head?.getD a = a
      · rw [if_pos hg]
        simp only [List.flatten_cons] at ih ⊢
        simp [ih]
      · rw [if_neg hg]
        simp only [List.flatten_cons] at ih ⊢
        simp [ih]

lemma mergeStep_length (d : ℕ) (res seg : List ℤ) :
    (mergeStep d res seg).length = res.length + seg.length := by
  unfold mergeStep
  split
  · simp
  · cases h : res.getLast? <;> simp [h]

lemma foldl_mergeStep_length (d : ℕ) (gs : List (List ℤ)) (init : List ℤ) :
    (gs.foldl (mergeStep d) init).length = init.length + (gs.map List.length).sum := by
  induction gs generalizing init with
  | nil => simp
  | cons g gs ih =>
    simp only [List.foldl_cons, List.map_cons, List.sum_cons, ih, mergeStep_length]
    omega

lemma smoothContour_length (d : ℕ) (c : List ℤ) :
    (smoothContour d c).length = c.length := by
  unfold smoothContour
  split
  · rfl
  · rw [foldl_mergeStep_length, ← List.length_flatten, splitRuns_flatten]
    simp

end MelodyMatcher

namespace MelodyMatcher

/-! ### Claim theorems -/

/-- C3: for contour values a, b in {-1, 0, +1}, the per-element alignment
cost of `DTWMatcher._contour_distance` is 0 when a = b, 2 when a and b are
opposite signs, and 1 when exactly one of the two is 0. -/
theorem contourDistance_cases (a b : ℤ) (ha : a = -1 ∨ a = 0 ∨ a = 1)
    (hb : b = -1 ∨ b = 0 ∨ b = 1) :
    (a = b → contourDistance a b = 0) ∧
    (((a = 1 ∧ b = -1) ∨ (a = -1 ∧ b = 1)) → contourDistance a b = 2) ∧
    (((a = 0 ∧ b ≠ 0) ∨ (a ≠ 0 ∧ b = 0)) → contourDistance a b = 1) := by
  rcases ha with ha | ha | ha <;> rcases hb with hb | hb | hb <;>
    subst ha <;> subst hb <;> exact ⟨by decide, by decide, by decide⟩

/-- Witness for C3 at the concrete pair a = 0, b = 1. -/
theorem contourDistance_cases_witness :
    ((0 : ℤ) = 1 → contourDistance 0 1 = 0) ∧
    ((((0 : ℤ) = 1 ∧ (1 : ℤ) = -1) ∨ ((0 : ℤ) = -1 ∧ (1 : ℤ) = 1)) →
      contourDistance 0 1 = 2) ∧
    ((((0 : ℤ) = 0 ∧ (1 : ℤ) ≠ 0) ∨ ((0 : ℤ) ≠ 0 ∧ (1 : ℤ) = 0)) →
      contourDistance 0 1 = 1) :=
  contourDistance_cases 0 1 (by decide) (by decide)

/-- C4: `ContourExtractor.extract_contour` returns exactly
`max 0 (v - 1)` contour elements for a pitch sequence with `v` valid frames
(with the defaults threshold 10 Hz, smoothing window 3, min duration 2), and
the run-merge smoothing step never changes the sequence length. -/
theorem extractContour_length (pitch : List (Option ℚ)) :
    (extractContour 10 3 2 pitch).length = (pitch.filterMap id).length - 1 ∧
    ∀ c : List ℤ, (smoothContour 2 c).length = c.length := by
  refine ⟨?_, fun c => smoothContour_length 2 c⟩
  by_cases h : (pitch.filterMap id).length < 2
  · simp only [extractContour, if_pos h, List.length_nil]
    omega
  · simp only [extractContour, if_neg h, smoothContour_length, List.length_map,
      pitchDiffs_length, smoothPitch_length 3 (by norm_num)]

/-- C8: loading the record produced by saving a signature under key `k`
yields value-identical `pitch_contour` and `pitch_values`, and `song_id`
equal to the loader's key `k`. -/
theorem loadSignature_roundtrip (S : MelodySignature) (k : String) :
    (loadSignature k S.save).pitch_contour = S.pitch_contour ∧
    (loadSignature k S.save).pitch_values = S.pitch_values ∧
    (loadSignature k S.save).song_id = k :=
  ⟨rfl, rfl, rfl⟩

/-- C9: `MelodyDatabase.add_song` leaves the store untouched when pitch
extraction fails, and on success inserts the new signature under the given
identifier (overwriting whatever was there), leaves every other identifier
unchanged, and returns that signature. -/
theorem addSong_atomic (extract : String → Except String (List (Option ℚ)))
    (st : String → Option MelodySignature) (k audio : String) (dur : ℚ) :
    (∀ e, extract audio = Except.error e →
      (addSong extract st k audio dur).1 = st ∧
      (addSong extract st k audio dur).2 = Except.error e) ∧
    (∀ p, extract audio = Except.ok p →
      ∃ sig : MelodySignature,
        (addSong extract st k audio dur).2 = Except.ok sig ∧
        sig.song_id = k ∧
        (addSong extract st k audio dur).1 k = some sig ∧
        ∀ k', k' ≠ k → (addSong extract st k audio dur).1 k' = st k') := by
  constructor
  · intro e he
    simp [addSong, he]
  · intro p hp
    refine ⟨⟨extractContour 10 3 2 p, p, k, dur⟩, ?_, rfl, ?_, ?_⟩
    · simp [addSong, hp]
    · simp [addSong, hp, dictInsert]
    · intro k' hk'
      simp [addSong, hp, dictInsert, hk']

/-- C10: when the number of valid frames is at most the median-filter window
(default 5), `PitchExtractor._median_filter` returns the pitch sequence
unchanged. -/
theorem medianFilter_short_passthrough (pitch : List (Option ℚ))
    (h : (pitch.filterMap id).length ≤ 5) : medianFilter 5 pitch = pitch := by
  simp [medianFilter, Nat.not_lt.mpr h]

/-- Witness for C10 at a two-frame sequence with one valid frame. -/
theorem medianFilter_short_passthrough_witness :
    ([some (1 : ℚ), none].filterMap id).length ≤ 5 ∧
    medianFilter 5 [some (1 : ℚ), none] = [some (1 : ℚ), none] :=
  ⟨by decide, medianFilter_short_passthrough [some (1 : ℚ), none] (by decide)⟩

end MelodyMatcher

namespace MelodyMatcher

/-- C1: evaluation of `DTWMatcher.compute_distance` (default window size 50)
at the failing input: a non-empty query of length 1 against a non-empty
reference of length 51.  The widened band `max 50 |n - m| = 50` still leaves
cell (1, 51) outside the computed region, because the loop bound
`j_end = min(m + 1, i + window)` is exclusive, so the result is infinite
rather than a finite value in [0, 2]. -/
theorem computeDistance_band_miss :
    computeDistance (some 50) ([0] : List ℤ) (List.replicate 51 0) = ⊤ := by
  decide

/-- C2: evaluation of `PitchExtractor._interpolate_gaps` (max gap 5) at the
failing input: a single 3-frame missing run bounded by equal valid values.
The loop skips the first and the last NaN index of the whole sequence, so
only the middle frame of the run is filled, not all three. -/
theorem interpolateGaps_middle_only :
    (interpolateGaps 5 [some 100, none, none, none, some 100]).getD 1 none = none ∧
    (interpolateGaps 5 [some 100, none, none, none, some 100]).getD 3 none = none ∧
    (interpolateGaps 5 [some 100, none, none, none, some 100]).getD 2 none = some 100 := by
  refine ⟨by decide, by decide, ?_⟩
  have h : (interpolateGaps 5 [some 100, none, none, none, some 100]).getD 2 none =
      some (interpAt ((2 : ℕ) : ℚ) ((0 : ℕ) : ℚ) ((4 : ℕ) : ℚ) 100 100) := rfl
  rw [h]
  norm_num [interpAt]

/-- C5: `DTWMatcher.compute_distance` returns infinity (never an error) as
soon as either contour is empty, and the matching pass of
`HummingMatcher.match_humming` assigns every stored entry its distance —
an entry with an empty stored contour receiving infinity while every entry,
in particular every non-empty one, still receives its score. -/
theorem emptyContour_infinite (w : Option ℕ) (q1 r1 : List ℤ)
    (he : q1 = [] ∨ r1 = []) (q : List ℤ) (store : List (String × List ℤ))
    (entry : String × List ℤ) (h1 : entry ∈ store) (h2 : entry.2 = []) :
    computeDistance w q1 r1 = ⊤ ∧
    (entry.1, (⊤ : WithTop ℚ)) ∈ matchAll q store ∧
    (matchAll q store).length = store.length ∧
    ∀ p ∈ store, (p.1, computeDistance (some 50) q p.2) ∈ matchAll q store := by
  refine ⟨?_, ?_, ?_, ?_⟩
  · rcases he with he | he <;> subst he <;> simp [computeDistance]
  · have hm : (entry.1, computeDistance (some 50) q entry.2) ∈ matchAll q store :=
      List.mem_map_of_mem _ h1
    rw [h2] at hm
    simpa [computeDistance] using hm
  · simp [matchAll]
  · intro p hp
    exact List.mem_map_of_mem _ hp

/-- Witness for C5: query contour [1] against a two-entry store whose first
entry has an empty stored contour. -/
theorem emptyContour_infinite_witness :
    computeDistance (some 50) ([] : List ℤ) [1] = ⊤ ∧
    ("a", (⊤ : WithTop ℚ)) ∈ matchAll [1] [("a", []), ("b", [1, 1])] ∧
    (matchAll [1] [("a", []), ("b", [1, 1])]).length =
      [("a", ([] : List ℤ)), ("b", [1, 1])].length ∧
    ∀ p ∈ [("a", ([] : List ℤ)), ("b", [1, 1])],
      (p.1, computeDistance (some 50) [1] p.2) ∈
        matchAll [1] [("a", []), ("b", [1, 1])] :=
  emptyContour_infinite (some 50) [] [1] (Or.inl rfl) [1] _ ("a", [])
    (by simp) rfl

/-- C6 counterexample: matching the query contour [1] against a store whose
single entry has an empty contour produces the distance +∞, and the
similarity the orchestrator computes for it, `1 / (1 + d)`, is 0 — not in
the half-open interval (0, 1] the claim asserts for every produced distance. -/
theorem similarityScore_zero_at_top :
    ("a", (⊤ : WithTop ℚ)) ∈ matchAll [1] [("a", [])] ∧
    similarityScore ⊤ = 0 ∧ ¬ 0 < similarityScore (⊤ : WithTop ℚ) := by
  refine ⟨?_, rfl, ?_⟩
  · simp [matchAll, computeDistance]
  · simp [similarityScore]

/-- C6 (amended): for every finite distance d ≥ 0 the similarity score is
`1 / (1 + d)`, lies in (0, 1], and is strictly decreasing in the distance;
an infinite distance is mapped to similarity 0. -/
theorem similarityScore_spec (d e : ℚ) (hd : 0 ≤ d) (hde : d < e) :
    similarityScore (d : WithTop ℚ) = 1 / (1 + d) ∧
    0 < similarityScore (d : WithTop ℚ) ∧
    similarityScore (d : WithTop ℚ) ≤ 1 ∧
    similarityScore (e : WithTop ℚ) < similarityScore (d : WithTop ℚ) ∧
    similarityScore ⊤ = 0 := by
  have h1 : (0 : ℚ) < 1 + d := by linarith
  have h2 : (0 : ℚ) < 1 + e := by linarith
  refine ⟨rfl, ?_, ?_, ?_, rfl⟩
  · simp only [similarityScore, WithTop.recTopCoe_coe]
    positivity
  · simp only [similarityScore, WithTop.recTopCoe_coe]
    rw [div_le_one h1]
    linarith
  · simp only [similarityScore, WithTop.recTopCoe_coe]
    exact one_div_lt_one_div_of_lt h1 (by linarith)

/-- Witness for C6 at the concrete distances d = 0 and e = 1. -/
theorem similarityScore_spec_witness :
    similarityScore ((0 : ℚ) : WithTop ℚ) = 1 / (1 + 0) ∧
    0 < similarityScore ((0 : ℚ) : WithTop ℚ) ∧
    similarityScore ((0 : ℚ) : WithTop ℚ) ≤ 1 ∧
    similarityScore ((1 : ℚ) : WithTop ℚ) < similarityScore ((0 : ℚ) : WithTop ℚ) ∧
    similarityScore ⊤ = 0 :=
  similarityScore_spec 0 1 le_rfl (by norm_num)

/-- C7: `HummingMatcher.match_humming` returns a ranked result list (ordered
by non-decreasing distance) for every non-empty query contour, and raises the
explicit no-melody error for every empty query contour. -/
theorem matchHumming_error_policy (q : List ℤ) (store : List (String × List ℤ))
    (topK : ℕ) (hq : q ≠ []) :
    (∃ l, matchHumming q store topK = Except.ok l ∧
      List.Pairwise (fun x y : String × WithTop ℚ => x.2 ≤ y.2) l) ∧
    ∀ (store' : List (String × List ℤ)) (topK' : ℕ),
      matchHumming ([] : List ℤ) store' topK' =
        Except.error "Could not extract valid melody from humming" := by
  constructor
  · refine ⟨((matchAll q store).mergeSort (fun a b => decide (a.2 ≤ b.2))).take topK,
      ?_, ?_⟩
    · unfold matchHumming
      rw [if_neg (by simpa [List.length_eq_zero] using hq)]
    · have htrans : ∀ a b c : String × WithTop ℚ,
          decide (a.2 ≤ b.2) = true → decide (b.2 ≤ c.2) = true →
            decide (a.2 ≤ c.2) = true := by
        intro a b c h1 h2
        exact decide_eq_true (le_trans (of_decide_eq_true h1) (of_decide_eq_true h2))
      have htotal : ∀ a b : String × WithTop ℚ,
          (decide (a.2 ≤ b.2) || decide (b.2 ≤ a.2)) = true := by
        intro a b
        simpa using le_total a.2 b.2
      have hs := List.sorted_mergeSort htrans htotal (matchAll q store)
      have hp : List.Pairwise (fun x y : String × WithTop ℚ => x.2 ≤ y.2)
          ((matchAll q store).mergeSort (fun a b => decide (a.2 ≤ b.2))) :=
        hs.imp (fun h => of_decide_eq_true h)
      exact hp.sublist (List.take_sublist _ _)
  · intro store' topK'
    rfl

/-- Witness for C7 at the query contour [1] against a one-entry store. -/
theorem matchHumming_error_policy_witness :
    (∃ l, matchHumming [1] [("a", [1])] 5 = Except.ok l ∧
      List.Pairwise (fun x y : String × WithTop ℚ => x.2 ≤ y.2) l) ∧
    ∀ (store' : List (String × List ℤ)) (topK' : ℕ),
      matchHumming ([] : List ℤ) store' topK' =
        Except.error "Could not extract valid melody from humming" :=
  matchHumming_error_policy [1] [("a", [1])] 5 (by decide)

end MelodyMatcher
